import Mathlib

/-!
Shallow embedding of the numerical core of the `lightonml` example notebooks
(`examples/randomized_svd.ipynb`, `examples/saving_and_loading.ipynb`).

Modelling conventions:
* numpy float arrays are modelled as lists of exact rationals (`List ℚ`,
  matrices as `List (List ℚ)`, row major); float rounding/overflow is not
  modelled, arithmetic is exact.
* `np.sqrt` produces irrational values, so a float that the code obtains as
  `num / (sqrt a * sqrt b)` is represented exactly by the pair
  `(num, a * b)` (`SimVal`), denoting the real number `num / Real.sqrt (a*b)`;
  theorems `geSqrtDiv_iff` and `simLe_iff_real` below prove that the
  executable comparator on pairs agrees with the real-number order.
* IEEE NaN is modelled where it actually arises in this code: a zero
  denominator (which here forces a zero numerator too, i.e. `0/0 = NaN`).
  `np.argsort` places NaN entries after every non-NaN entry; the comparator
  `simLe` encodes exactly that.
* `np.argsort` is modelled as a sort of the index range by the entry order.
  The notebook spec leaves tie order implementation defined (stable by index
  is explicitly allowed), and the model sorts ties stably by index.
-/

/-- Dot product of two equal-length 1-D arrays (`np.dot`, and one row of
`np.einsum('ij, ij -> i', data, data)` when applied to a row with itself). -/
def dot (u v : List ℚ) : ℚ :=
  (List.zipWith (· * ·) u v).sum

/-- Squared Euclidean magnitude of a row: the row's entry of
`np.einsum('ij, ij -> i', data, data)`.  The code's `magnitude` array holds
`np.sqrt` of this value. -/
def sqNorm (v : List ℚ) : ℚ :=
  dot v v

theorem dot_nil_left (v : List ℚ) : dot [] v = 0 := rfl

theorem dot_cons_cons (a b : ℚ) (u v : List ℚ) :
    dot (a :: u) (b :: v) = a * b + dot u v := by
  simp [dot, List.zipWith]

theorem dot_self_nonneg (v : List ℚ) : 0 ≤ sqNorm v := by
  induction v with
  | nil => simp [sqNorm, dot]
  | cons a u ih =>
      have h := dot_cons_cons a a u u
      simp only [sqNorm] at *
      rw [h]
      nlinarith [sq_nonneg a]

theorem dot_nil_right (u : List ℚ) : dot u [] = 0 := by
  cases u <;> rfl

/-- Cauchy–Schwarz for the list dot product. -/
theorem dot_sq_le (u v : List ℚ) : (dot u v) ^ 2 ≤ sqNorm u * sqNorm v := by
  induction u generalizing v with
  | nil =>
      have h0 : 0 ≤ sqNorm v := dot_self_nonneg v
      simp [sqNorm, dot_nil_left]
  | cons a u ih =>
      cases v with
      | nil =>
          rw [dot_nil_right]
          have h0 : 0 ≤ sqNorm (a :: u) := dot_self_nonneg (a :: u)
          simp [sqNorm, dot_nil_right]
      | cons b v =>
          have hu : 0 ≤ sqNorm u := dot_self_nonneg u
          have hv : 0 ≤ sqNorm v := dot_self_nonneg v
          have h := ih v
          simp only [sqNorm] at *
          rw [dot_cons_cons, dot_cons_cons, dot_cons_cons]
          rcases lt_or_eq_of_le hv with hv' | hv'
          · nlinarith [sq_nonneg (a * dot v v - b * dot u v),
              mul_nonneg (sub_nonneg.2 h) hv,
              mul_nonneg (sq_nonneg b) (sub_nonneg.2 h)]
          · have hd : dot u v = 0 := by nlinarith [sq_nonneg (dot u v)]
            rw [hd, ← hv']
            nlinarith [mul_nonneg hu (sq_nonneg b)]

/-- One entry of the notebook's `similarity` float array, represented exactly.
`num` is the entry of `np.dot(movie_row, data.T)`; the float denominator is
`magnitude[index] * magnitude[j] = Real.sqrt den` with
`den = sqNorm movie_row * sqNorm row_j`, so the entry denotes the real number
`num / Real.sqrt den`.  In the code `den = 0` happens exactly when the query
row or the current row is all zero, in which case `num = 0` as well and the
float division is IEEE `0/0 = NaN`. -/
structure SimVal where
  num : ℚ
  den : ℚ
deriving DecidableEq, Repr

/-- Similarity entry of row `row` against the query row `movie_row`:
`np.dot(movie_row, data.T)[j] / (magnitude[index] * magnitude[j])`. -/
def simEntry (movie_row row : List ℚ) : SimVal :=
  ⟨dot movie_row row, sqNorm movie_row * sqNorm row⟩

/-- Decides `a / Real.sqrt d₁ ≥ b / Real.sqrt d₂` for positive `d₁, d₂` using
only rational arithmetic (compare signs, then cross-multiplied squares).
`geSqrtDiv_iff` proves this agrees with the real order. -/
def geSqrtDiv (a d₁ b d₂ : ℚ) : Bool :=
  if 0 ≤ a then
    if 0 < b then decide (b * b * d₁ ≤ a * a * d₂) else true
  else
    if 0 < b then false else decide (a * a * d₂ ≤ b * b * d₁)

/-- Sort-order comparator behind `np.argsort(-similarity)`: `simLe x y` holds
when `x` is placed before (or with) `y`, i.e. `-x ≤ -y` as floats, which is
descending order of the similarity values with NaN entries (zero denominator)
placed after every non-NaN entry, exactly as `np.argsort` orders NaN. -/
def simLe (x y : SimVal) : Bool :=
  if x.den ≤ 0 then decide (y.den ≤ 0)
  else if y.den ≤ 0 then true
  else geSqrtDiv x.num x.den y.num y.den

/-- Index sort: `np.argsort` of an array, as the list of positions of the
array sorted by the entry order `le` (stable by index on ties). -/
def argsort {α : Type} (le : α → α → Bool) (pad : α) (xs : List α) : List ℕ :=
  List.insertionSort (fun i j => le (xs.getD i pad) (xs.getD j pad) = true)
    (List.range xs.length)

/-- The notebook's `top_cosine_similarity(data, movie_id, top_n)`:
cosine similarity of every row of `data` against row `movie_id - 1`,
`np.argsort(-similarity) + 1`, sliced to the first `top_n` entries. -/
def top_cosine_similarity (data : List (List ℚ)) (movie_id : ℕ)
    (top_n : ℕ := 10) : List ℕ :=
  let index := movie_id - 1
  let movie_row := data.getD index []
  let similarity := data.map (fun row => simEntry movie_row row)
  let sort_indices := (argsort simLe ⟨0, 0⟩ similarity).map (· + 1)
  sort_indices.take top_n

/-- Spec-variant of `simEntry` for the refinement comparison of claim C1,
following the spec's words: an undefined cosine similarity (zero-magnitude
row, zero denominator) is treated as similarity `0` instead. -/
def simEntryZero (movie_row row : List ℚ) : SimVal :=
  if sqNorm movie_row * sqNorm row = 0 then ⟨0, 1⟩ else simEntry movie_row row

/-- Spec-variant of `top_cosine_similarity` for the refinement comparison of
claim C1: identical except that undefined similarities rank as `0`. -/
def top_cosine_similarity_zero (data : List (List ℚ)) (movie_id : ℕ)
    (top_n : ℕ := 10) : List ℕ :=
  let index := movie_id - 1
  let movie_row := data.getD index []
  let similarity := data.map (fun row => simEntryZero movie_row row)
  let sort_indices := (argsort simLe ⟨0, 0⟩ similarity).map (· + 1)
  sort_indices.take top_n

/-- Real-number value of the cosine similarity between the query row and
another row, exactly the float expression the notebook computes:
`np.dot(movie_row, row) / (magnitude[index] * magnitude[j])` with
`magnitude = np.sqrt(np.einsum('ij, ij -> i', data, data))`. -/
noncomputable def cosineSim (q r : List ℚ) : ℝ :=
  (dot q r : ℝ) / (Real.sqrt (sqNorm q) * Real.sqrt (sqNorm r))

/-- The executable comparator `geSqrtDiv` decides the real-number order of
`a / √d₁` against `b / √d₂` for positive denominators. -/
theorem geSqrtDiv_iff (a d₁ b d₂ : ℚ) (h₁ : 0 < d₁) (h₂ : 0 < d₂) :
    geSqrtDiv a d₁ b d₂ = true ↔
      (b : ℝ) / Real.sqrt (d₂ : ℝ) ≤ (a : ℝ) / Real.sqrt (d₁ : ℝ) := by
  have h₁r : (0 : ℝ) < (d₁ : ℝ) := by exact_mod_cast h₁
  have h₂r : (0 : ℝ) < (d₂ : ℝ) := by exact_mod_cast h₂
  have s₁ : (0 : ℝ) < Real.sqrt d₁ := Real.sqrt_pos.2 h₁r
  have s₂ : (0 : ℝ) < Real.sqrt d₂ := Real.sqrt_pos.2 h₂r
  have m₁ : Real.sqrt (d₁ : ℝ) * Real.sqrt (d₁ : ℝ) = (d₁ : ℝ) :=
    Real.mul_self_sqrt h₁r.le
  have m₂ : Real.sqrt (d₂ : ℝ) * Real.sqrt (d₂ : ℝ) = (d₂ : ℝ) :=
    Real.mul_self_sqrt h₂r.le
  rw [div_le_div_iff₀ s₂ s₁]
  unfold geSqrtDiv
  by_cases ha : 0 ≤ a
  · have har : (0 : ℝ) ≤ (a : ℝ) := by exact_mod_cast ha
    by_cases hb : 0 < b
    · have hbr : (0 : ℝ) < (b : ℝ) := by exact_mod_cast hb
      rw [if_pos ha, if_pos hb, decide_eq_true_eq]
      rw [mul_self_le_mul_self_iff (mul_nonneg hbr.le s₁.le) (mul_nonneg har s₂.le)]
      have e₁ : (b : ℝ) * Real.sqrt d₁ * ((b : ℝ) * Real.sqrt d₁)
          = (b : ℝ) * (b : ℝ) * (d₁ : ℝ) := by
        rw [show (b : ℝ) * Real.sqrt d₁ * ((b : ℝ) * Real.sqrt d₁)
            = (b : ℝ) * (b : ℝ) * (Real.sqrt d₁ * Real.sqrt d₁) by ring, m₁]
      have e₂ : (a : ℝ) * Real.sqrt d₂ * ((a : ℝ) * Real.sqrt d₂)
          = (a : ℝ) * (a : ℝ) * (d₂ : ℝ) := by
        rw [show (a : ℝ) * Real.sqrt d₂ * ((a : ℝ) * Real.sqrt d₂)
            = (a : ℝ) * (a : ℝ) * (Real.sqrt d₂ * Real.sqrt d₂) by ring, m₂]
      rw [e₁, e₂]
      exact_mod_cast Iff.rfl
    · have hbr : (b : ℝ) ≤ 0 := by exact_mod_cast not_lt.1 hb
      rw [if_pos ha, if_neg hb]
      refine iff_of_true rfl ?_
      exact le_trans (mul_nonpos_of_nonpos_of_nonneg hbr s₁.le)
        (mul_nonneg har s₂.le)
  · have har : (a : ℝ) < 0 := by exact_mod_cast not_le.1 ha
    by_cases hb : 0 < b
    · have hbr : (0 : ℝ) < (b : ℝ) := by exact_mod_cast hb
      rw [if_neg ha, if_pos hb]
      refine iff_of_false (by simp) (not_le.2 ?_)
      exact lt_of_lt_of_le (mul_neg_of_neg_of_pos har s₂)
        (mul_nonneg hbr.le s₁.le)
    · have hbr : (b : ℝ) ≤ 0 := by exact_mod_cast not_lt.1 hb
      rw [if_neg ha, if_neg hb, decide_eq_true_eq]
      have hA : (0 : ℝ) ≤ -((a : ℝ) * Real.sqrt d₂) :=
        neg_nonneg.2 (mul_nonpos_of_nonpos_of_nonneg har.le s₂.le)
      have hB : (0 : ℝ) ≤ -((b : ℝ) * Real.sqrt d₁) :=
        neg_nonneg.2 (mul_nonpos_of_nonpos_of_nonneg hbr s₁.le)
      have e₁ : -((a : ℝ) * Real.sqrt d₂) * -((a : ℝ) * Real.sqrt d₂)
          = (a : ℝ) * (a : ℝ) * (d₂ : ℝ) := by
        rw [show -((a : ℝ) * Real.sqrt d₂) * -((a : ℝ) * Real.sqrt d₂)
            = (a : ℝ) * (a : ℝ) * (Real.sqrt d₂ * Real.sqrt d₂) by ring, m₂]
      have e₂ : -((b : ℝ) * Real.sqrt d₁) * -((b : ℝ) * Real.sqrt d₁)
          = (b : ℝ) * (b : ℝ) * (d₁ : ℝ) := by
        rw [show -((b : ℝ) * Real.sqrt d₁) * -((b : ℝ) * Real.sqrt d₁)
            = (b : ℝ) * (b : ℝ) * (Real.sqrt d₁ * Real.sqrt d₁) by ring, m₁]
      constructor
      · intro hq
        have h2 : -((a : ℝ) * Real.sqrt d₂) ≤ -((b : ℝ) * Real.sqrt d₁) := by
          refine (mul_self_le_mul_self_iff hA hB).2 ?_
          rw [e₁, e₂]
          exact_mod_cast hq
        linarith
      · intro hreal
        have h2 : -((a : ℝ) * Real.sqrt d₂) ≤ -((b : ℝ) * Real.sqrt d₁) := by
          linarith
        have h3 := (mul_self_le_mul_self_iff hA hB).1 h2
        rw [e₁, e₂] at h3
        exact_mod_cast h3

/-- The sort comparator agrees with the real order for non-NaN entries:
`simLe x y` holds exactly when `y`'s real value is at most `x`'s
(the descending sort of `np.argsort(-similarity)`). -/
theorem simLe_iff_real (x y : SimVal) (hx : 0 < x.den) (hy : 0 < y.den) :
    simLe x y = true ↔
      (y.num : ℝ) / Real.sqrt (y.den : ℝ) ≤ (x.num : ℝ) / Real.sqrt (x.den : ℝ) := by
  unfold simLe
  rw [if_neg (not_le.2 hx), if_neg (not_le.2 hy)]
  exact geSqrtDiv_iff x.num x.den y.num y.den hx hy

theorem simLe_total (x y : SimVal) : simLe x y = true ∨ simLe y x = true := by
  by_cases hx : x.den ≤ 0
  · by_cases hy : y.den ≤ 0
    · left
      simp [simLe, hx, hy]
    · right
      simp [simLe, hx, hy]
  · by_cases hy : y.den ≤ 0
    · left
      simp [simLe, hx, hy]
    · push_neg at hx hy
      rcases le_total ((y.num : ℝ) / Real.sqrt (y.den : ℝ))
        ((x.num : ℝ) / Real.sqrt (x.den : ℝ)) with h | h
      · exact Or.inl ((simLe_iff_real x y hx hy).2 h)
      · exact Or.inr ((simLe_iff_real y x hy hx).2 h)

theorem simLe_trans (x y z : SimVal) (hxy : simLe x y = true)
    (hyz : simLe y z = true) : simLe x z = true := by
  by_cases hx : x.den ≤ 0
  · have hy : y.den ≤ 0 := by
      simpa [simLe, hx] using hxy
    have hz : z.den ≤ 0 := by
      simpa [simLe, hy] using hyz
    simp [simLe, hx, hz]
  · by_cases hz : z.den ≤ 0
    · simp [simLe, hx, hz]
    · by_cases hy : y.den ≤ 0
      · exfalso
        have hz' : z.den ≤ 0 := by
          simpa [simLe, hy] using hyz
        exact hz hz'
      · push_neg at hx hy hz
        have h₁ := (simLe_iff_real x y hx hy).1 hxy
        have h₂ := (simLe_iff_real y z hy hz).1 hyz
        exact (simLe_iff_real x z hx hz).2 (le_trans h₂ h₁)

theorem argsort_perm {α : Type} (le : α → α → Bool) (pad : α) (xs : List α) :
    (argsort le pad xs).Perm (List.range xs.length) :=
  List.perm_insertionSort _ _

theorem argsort_length {α : Type} (le : α → α → Bool) (pad : α) (xs : List α) :
    (argsort le pad xs).length = xs.length := by
  rw [(argsort_perm le pad xs).length_eq, List.length_range]

theorem argsort_nodup {α : Type} (le : α → α → Bool) (pad : α) (xs : List α) :
    (argsort le pad xs).Nodup :=
  ((argsort_perm le pad xs).nodup_iff).2 (List.nodup_range _)

theorem argsort_mem {α : Type} (le : α → α → Bool) (pad : α) (xs : List α)
    (i : ℕ) : i ∈ argsort le pad xs ↔ i < xs.length := by
  rw [(argsort_perm le pad xs).mem_iff, List.mem_range]

theorem argsort_sorted {α : Type} (le : α → α → Bool) (pad : α) (xs : List α)
    (htrans : ∀ x y z, le x y = true → le y z = true → le x z = true)
    (htotal : ∀ x y, le x y = true ∨ le y x = true) :
    List.Sorted (fun i j => le (xs.getD i pad) (xs.getD j pad) = true)
      (argsort le pad xs) := by
  haveI : IsTotal ℕ (fun i j => le (xs.getD i pad) (xs.getD j pad) = true) :=
    ⟨fun a b => htotal _ _⟩
  haveI : IsTrans ℕ (fun i j => le (xs.getD i pad) (xs.getD j pad) = true) :=
    ⟨fun a b c => htrans _ _ _⟩
  exact List.sorted_insertionSort _ _

/-- The `similarity` array built by `top_cosine_similarity`. -/
def simList (data : List (List ℚ)) (movie_id : ℕ) : List SimVal :=
  data.map (fun row => simEntry (data.getD (movie_id - 1) []) row)

/-- The full `np.argsort(-similarity)` index list of `top_cosine_similarity`,
before the 1-offset and the `top_n` slice. -/
def sortedIdx (data : List (List ℚ)) (movie_id : ℕ) : List ℕ :=
  argsort simLe ⟨0, 0⟩ (simList data movie_id)

theorem top_cosine_similarity_eq (data : List (List ℚ)) (movie_id top_n : ℕ) :
    top_cosine_similarity data movie_id top_n
      = ((sortedIdx data movie_id).map (· + 1)).take top_n := rfl

theorem simList_length (data : List (List ℚ)) (movie_id : ℕ) :
    (simList data movie_id).length = data.length := by
  simp [simList]

theorem simList_getD (data : List (List ℚ)) (movie_id : ℕ) {i : ℕ}
    (hi : i < data.length) :
    (simList data movie_id).getD i ⟨0, 0⟩
      = simEntry (data.getD (movie_id - 1) []) (data.getD i []) := by
  have hi' : i < (simList data movie_id).length := by
    rw [simList_length]
    exact hi
  rw [List.getD_eq_getElem _ _ hi', List.getD_eq_getElem _ _ hi]
  simp [simList]

theorem sortedIdx_perm (data : List (List ℚ)) (movie_id : ℕ) :
    (sortedIdx data movie_id).Perm (List.range data.length) := by
  have h := argsort_perm simLe ⟨0, 0⟩ (simList data movie_id)
  rwa [simList_length] at h

theorem sortedIdx_length (data : List (List ℚ)) (movie_id : ℕ) :
    (sortedIdx data movie_id).length = data.length := by
  rw [(sortedIdx_perm data movie_id).length_eq, List.length_range]

theorem sortedIdx_nodup (data : List (List ℚ)) (movie_id : ℕ) :
    (sortedIdx data movie_id).Nodup :=
  ((sortedIdx_perm data movie_id).nodup_iff).2 (List.nodup_range _)

theorem sortedIdx_mem (data : List (List ℚ)) (movie_id : ℕ) (i : ℕ) :
    i ∈ sortedIdx data movie_id ↔ i < data.length := by
  rw [(sortedIdx_perm data movie_id).mem_iff, List.mem_range]

theorem sortedIdx_sorted (data : List (List ℚ)) (movie_id : ℕ) :
    List.Sorted
      (fun i j => simLe ((simList data movie_id).getD i ⟨0, 0⟩)
        ((simList data movie_id).getD j ⟨0, 0⟩) = true)
      (sortedIdx data movie_id) :=
  argsort_sorted simLe ⟨0, 0⟩ (simList data movie_id) simLe_trans simLe_total

theorem simEntry_den_nonneg (q r : List ℚ) : 0 ≤ (simEntry q r).den :=
  mul_nonneg (dot_self_nonneg q) (dot_self_nonneg r)

theorem simEntry_den_pos {q r : List ℚ} (hq : sqNorm q ≠ 0) (hr : sqNorm r ≠ 0) :
    0 < (simEntry q r).den :=
  mul_pos (lt_of_le_of_ne (dot_self_nonneg q) (Ne.symm hq))
    (lt_of_le_of_ne (dot_self_nonneg r) (Ne.symm hr))

/-- A `SimVal` built by `simEntry` denotes exactly the real cosine
similarity of the two rows. -/
theorem simEntry_real (q r : List ℚ) :
    ((simEntry q r).num : ℝ) / Real.sqrt ((simEntry q r).den : ℝ)
      = cosineSim q r := by
  unfold simEntry cosineSim
  have hcast : (((sqNorm q * sqNorm r : ℚ)) : ℝ)
      = ((sqNorm q : ℚ) : ℝ) * ((sqNorm r : ℚ) : ℝ) := by push_cast; ring
  simp only [hcast]
  rw [Real.sqrt_mul (by exact_mod_cast dot_self_nonneg q)]

theorem simLe_simEntry_iff (q r₁ r₂ : List ℚ) (hq : sqNorm q ≠ 0)
    (h₁ : sqNorm r₁ ≠ 0) (h₂ : sqNorm r₂ ≠ 0) :
    simLe (simEntry q r₁) (simEntry q r₂) = true ↔
      cosineSim q r₂ ≤ cosineSim q r₁ := by
  rw [simLe_iff_real _ _ (simEntry_den_pos hq h₁) (simEntry_den_pos hq h₂),
    simEntry_real, simEntry_real]

/-- Cosine similarity of a nonzero-magnitude row with itself is exactly 1. -/
theorem cosineSim_self (q : List ℚ) (hq : sqNorm q ≠ 0) : cosineSim q q = 1 := by
  have hQ : (0 : ℝ) < ((sqNorm q : ℚ) : ℝ) := by
    exact_mod_cast lt_of_le_of_ne (dot_self_nonneg q) (Ne.symm hq)
  unfold cosineSim
  rw [show dot q q = sqNorm q from rfl, Real.mul_self_sqrt hQ.le]
  exact div_self (ne_of_gt hQ)

/-- Cosine similarity is bounded by 1 (Cauchy–Schwarz). -/
theorem cosineSim_le_one (q r : List ℚ) (hq : sqNorm q ≠ 0) (hr : sqNorm r ≠ 0) :
    cosineSim q r ≤ 1 := by
  have hQ : (0 : ℝ) < ((sqNorm q : ℚ) : ℝ) := by
    exact_mod_cast lt_of_le_of_ne (dot_self_nonneg q) (Ne.symm hq)
  have hR : (0 : ℝ) < ((sqNorm r : ℚ) : ℝ) := by
    exact_mod_cast lt_of_le_of_ne (dot_self_nonneg r) (Ne.symm hr)
  have hden : (0 : ℝ) < Real.sqrt (sqNorm q) * Real.sqrt (sqNorm r) :=
    mul_pos (Real.sqrt_pos.2 hQ) (Real.sqrt_pos.2 hR)
  unfold cosineSim
  rw [div_le_one hden]
  have hcs : ((dot q r : ℚ) : ℝ) ^ 2 ≤ ((sqNorm q : ℚ) : ℝ) * ((sqNorm r : ℚ) : ℝ) := by
    exact_mod_cast dot_sq_le q r
  have hle : ((dot q r : ℚ) : ℝ)
      ≤ Real.sqrt (((sqNorm q : ℚ) : ℝ) * ((sqNorm r : ℚ) : ℝ)) := by
    rcases le_or_lt ((dot q r : ℚ) : ℝ) 0 with h | h
    · exact le_trans h (Real.sqrt_nonneg _)
    · exact (Real.le_sqrt h.le (mul_nonneg hQ.le hR.le)).2 hcs
  rwa [Real.sqrt_mul hQ.le] at hle

theorem top_cos_length (data : List (List ℚ)) (movie_id top_n : ℕ) :
    (top_cosine_similarity data movie_id top_n).length = min top_n data.length := by
  rw [top_cosine_similarity_eq, List.length_take, List.length_map, sortedIdx_length]

theorem top_cos_nodup (data : List (List ℚ)) (movie_id top_n : ℕ) :
    (top_cosine_similarity data movie_id top_n).Nodup := by
  rw [top_cosine_similarity_eq]
  exact List.Nodup.sublist (List.take_sublist _ _)
    (List.Nodup.map (add_left_injective 1) (sortedIdx_nodup data movie_id))

theorem top_cos_mem_bounds (data : List (List ℚ)) (movie_id top_n : ℕ) (x : ℕ)
    (hx : x ∈ top_cosine_similarity data movie_id top_n) :
    1 ≤ x ∧ x ≤ data.length := by
  rw [top_cosine_similarity_eq] at hx
  have hx' := List.take_subset _ _ hx
  rcases List.mem_map.1 hx' with ⟨i, hi, rfl⟩
  have hlt : i < data.length := (sortedIdx_mem data movie_id i).1 hi
  omega

theorem top_cos_sorted (data : List (List ℚ)) (movie_id top_n : ℕ) :
    (top_cosine_similarity data movie_id top_n).Pairwise
      (fun a b => simLe ((simList data movie_id).getD (a - 1) ⟨0, 0⟩)
        ((simList data movie_id).getD (b - 1) ⟨0, 0⟩) = true) := by
  rw [top_cosine_similarity_eq]
  refine List.Pairwise.sublist (List.take_sublist _ _) ?_
  rw [List.pairwise_map]
  simpa using sortedIdx_sorted data movie_id

theorem top_cos_split (data : List (List ℚ)) (movie_id top_n : ℕ)
    (a : ℕ) (ha : a ∈ top_cosine_similarity data movie_id top_n)
    (j : ℕ) (hj : j < data.length)
    (hnot : (j + 1) ∉ top_cosine_similarity data movie_id top_n) :
    simLe ((simList data movie_id).getD (a - 1) ⟨0, 0⟩)
      ((simList data movie_id).getD j ⟨0, 0⟩) = true := by
  have hfull : ((sortedIdx data movie_id).map (· + 1)).Pairwise
      (fun x y => simLe ((simList data movie_id).getD (x - 1) ⟨0, 0⟩)
        ((simList data movie_id).getD (y - 1) ⟨0, 0⟩) = true) := by
    rw [List.pairwise_map]
    simpa using sortedIdx_sorted data movie_id
  rw [← List.take_append_drop top_n ((sortedIdx data movie_id).map (· + 1))]
    at hfull
  rcases List.pairwise_append.1 hfull with ⟨-, -, hcross⟩
  have hmem : (j + 1) ∈ (sortedIdx data movie_id).map (· + 1) :=
    List.mem_map.2 ⟨j, (sortedIdx_mem data movie_id j).2 hj, rfl⟩
  rw [← List.take_append_drop top_n ((sortedIdx data movie_id).map (· + 1))]
    at hmem
  rcases List.mem_append.1 hmem with hin | hin
  · exact absurd hin (by simpa [top_cosine_similarity_eq] using hnot)
  · have := hcross a (by simpa [top_cosine_similarity_eq] using ha) (j + 1) hin
    simpa using this

theorem simLe_nan {x y : SimVal} (h : simLe x y = true) (hx : x.den ≤ 0) :
    y.den ≤ 0 := by
  unfold simLe at h
  rw [if_pos hx] at h
  exact of_decide_eq_true h

/-- C1 (counterexample): the code does not treat an undefined (zero-magnitude)
cosine similarity as `0`.  For `D = [[1,0],[-1,0],[0,0]]`, query `1`, `top_n = 2`,
the code's NaN similarity for the zero row sorts after everything, giving
`[1, 2]`; treating it as similarity `0` would rank the zero row above the
negatively correlated row, giving `[1, 3]`. -/
theorem C1_counterexample :
    top_cosine_similarity [[1, 0], [-1, 0], [0, 0]] 1 2 = [1, 2] ∧
    top_cosine_similarity_zero [[1, 0], [-1, 0], [0, 0]] 1 2 = [1, 3] ∧
    top_cosine_similarity [[1, 0], [-1, 0], [0, 0]] 1 2
      ≠ top_cosine_similarity_zero [[1, 0], [-1, 0], [0, 0]] 1 2 := by
  refine ⟨?_, ?_, ?_⟩
  · norm_num [top_cosine_similarity, argsort, simLe, geSqrtDiv, simEntry, sqNorm, dot,
      List.insertionSort, List.orderedInsert, List.range_succ]
  · norm_num [top_cosine_similarity_zero, argsort, simLe, geSqrtDiv, simEntryZero, simEntry,
      sqNorm, dot, List.insertionSort, List.orderedInsert, List.range_succ]
  · norm_num [top_cosine_similarity, top_cosine_similarity_zero, argsort, simLe, geSqrtDiv,
      simEntry, simEntryZero, sqNorm, dot,
      List.insertionSort, List.orderedInsert, List.range_succ]

/-- C1 (amended): on every input, zero-magnitude rows included, the ranker
returns a well-defined list (`min top_n rows` distinct valid 1-based
indices) without raising; but an undefined cosine similarity (zero
denominator, NaN in the code) is ordered after every defined similarity, as
if it were `-∞` — not treated as `0`: in the returned list no
defined-similarity index follows an undefined one, and if an
undefined-similarity index is returned then every defined-similarity index
is also returned. -/
theorem C1_nan_ranked_last (D : List (List ℚ)) (movie_id top_n : ℕ) :
    (top_cosine_similarity D movie_id top_n).length = min top_n D.length ∧
    (top_cosine_similarity D movie_id top_n).Nodup ∧
    (∀ x ∈ top_cosine_similarity D movie_id top_n, 1 ≤ x ∧ x ≤ D.length) ∧
    (top_cosine_similarity D movie_id top_n).Pairwise
      (fun a b =>
        (simEntry (D.getD (movie_id - 1) []) (D.getD (a - 1) [])).den = 0 →
        (simEntry (D.getD (movie_id - 1) []) (D.getD (b - 1) [])).den = 0) ∧
    (∀ a ∈ top_cosine_similarity D movie_id top_n,
      (simEntry (D.getD (movie_id - 1) []) (D.getD (a - 1) [])).den = 0 →
      ∀ j, j < D.length →
        (simEntry (D.getD (movie_id - 1) []) (D.getD j [])).den ≠ 0 →
        (j + 1) ∈ top_cosine_similarity D movie_id top_n) := by
  have hval : ∀ i, i < D.length →
      (simList D movie_id).getD i ⟨0, 0⟩
        = simEntry (D.getD (movie_id - 1) []) (D.getD i []) :=
    fun i hi => simList_getD D movie_id hi
  refine ⟨top_cos_length D movie_id top_n, top_cos_nodup D movie_id top_n,
    fun x hx => top_cos_mem_bounds D movie_id top_n x hx, ?_, ?_⟩
  · refine List.Pairwise.imp_of_mem ?_ (top_cos_sorted D movie_id top_n)
    intro a b ha hb hab hden
    obtain ⟨ha1, ha2⟩ := top_cos_mem_bounds D movie_id top_n a ha
    obtain ⟨hb1, hb2⟩ := top_cos_mem_bounds D movie_id top_n b hb
    have hai : a - 1 < D.length := by omega
    have hbi : b - 1 < D.length := by omega
    rw [hval _ hai, hval _ hbi] at hab
    have hle := simLe_nan hab (le_of_eq hden)
    exact le_antisymm hle (simEntry_den_nonneg _ _)
  · intro a ha hden j hj hjnz
    by_contra hnot
    obtain ⟨ha1, ha2⟩ := top_cos_mem_bounds D movie_id top_n a ha
    have hai : a - 1 < D.length := by omega
    have h := top_cos_split D movie_id top_n a ha j hj hnot
    rw [hval _ hai, hval _ hj] at h
    have hle := simLe_nan h (le_of_eq hden)
    exact hjnz (le_antisymm hle (simEntry_den_nonneg _ _))

/-- C1 (witness for the amended theorem): a concrete matrix with a
zero-magnitude row. -/
theorem C1_nan_ranked_last_witness :
    (top_cosine_similarity [[1, 0], [-1, 0], [0, 0]] 1 2).length
        = min 2 ([[(1 : ℚ), 0], [-1, 0], [0, 0]] : List (List ℚ)).length ∧
    (top_cosine_similarity [[1, 0], [-1, 0], [0, 0]] 1 2).Nodup ∧
    (∀ x ∈ top_cosine_similarity [[1, 0], [-1, 0], [0, 0]] 1 2,
      1 ≤ x ∧ x ≤ ([[(1 : ℚ), 0], [-1, 0], [0, 0]] : List (List ℚ)).length) ∧
    (top_cosine_similarity [[1, 0], [-1, 0], [0, 0]] 1 2).Pairwise
      (fun a b =>
        (simEntry (([[(1 : ℚ), 0], [-1, 0], [0, 0]] : List (List ℚ)).getD (1 - 1) [])
          (([[(1 : ℚ), 0], [-1, 0], [0, 0]] : List (List ℚ)).getD (a - 1) [])).den = 0 →
        (simEntry (([[(1 : ℚ), 0], [-1, 0], [0, 0]] : List (List ℚ)).getD (1 - 1) [])
          (([[(1 : ℚ), 0], [-1, 0], [0, 0]] : List (List ℚ)).getD (b - 1) [])).den = 0) ∧
    (∀ a ∈ top_cosine_similarity [[1, 0], [-1, 0], [0, 0]] 1 2,
      (simEntry (([[(1 : ℚ), 0], [-1, 0], [0, 0]] : List (List ℚ)).getD (1 - 1) [])
        (([[(1 : ℚ), 0], [-1, 0], [0, 0]] : List (List ℚ)).getD (a - 1) [])).den = 0 →
      ∀ j, j < ([[(1 : ℚ), 0], [-1, 0], [0, 0]] : List (List ℚ)).length →
        (simEntry (([[(1 : ℚ), 0], [-1, 0], [0, 0]] : List (List ℚ)).getD (1 - 1) [])
          (([[(1 : ℚ), 0], [-1, 0], [0, 0]] : List (List ℚ)).getD j [])).den ≠ 0 →
        (j + 1) ∈ top_cosine_similarity [[1, 0], [-1, 0], [0, 0]] 1 2) :=
  C1_nan_ranked_last [[1, 0], [-1, 0], [0, 0]] 1 2

/-- C8: `top_cosine_similarity` is a pure deterministic function — two calls
with identical arguments return identical top-N lists. -/
theorem C8_deterministic (data : List (List ℚ)) (movie_id top_n : ℕ) :
    top_cosine_similarity data movie_id top_n
      = top_cosine_similarity data movie_id top_n := rfl

/-- C2: for a factor matrix whose rows all have nonzero magnitude, a valid
1-based query index, and `1 ≤ N ≤ rows`, `top_cosine_similarity` returns
exactly `N` distinct valid 1-based row indices, ordered descending by cosine
similarity to the query row, and every returned index has cosine similarity
at least that of every valid index left out (the top-N property). -/
theorem C2_top_n_correct (D : List (List ℚ)) (movie_id N : ℕ)
    (hrows : ∀ r ∈ D, sqNorm r ≠ 0)
    (hid1 : 1 ≤ movie_id) (hid2 : movie_id ≤ D.length)
    (hN1 : 1 ≤ N) (hN2 : N ≤ D.length) :
    (top_cosine_similarity D movie_id N).length = N ∧
    (top_cosine_similarity D movie_id N).Nodup ∧
    (∀ x ∈ top_cosine_similarity D movie_id N, 1 ≤ x ∧ x ≤ D.length) ∧
    (top_cosine_similarity D movie_id N).Pairwise
      (fun a b => cosineSim (D.getD (movie_id - 1) []) (D.getD (b - 1) [])
        ≤ cosineSim (D.getD (movie_id - 1) []) (D.getD (a - 1) [])) ∧
    (∀ i ∈ top_cosine_similarity D movie_id N, ∀ j, 1 ≤ j → j ≤ D.length →
      j ∉ top_cosine_similarity D movie_id N →
      cosineSim (D.getD (movie_id - 1) []) (D.getD (j - 1) [])
        ≤ cosineSim (D.getD (movie_id - 1) []) (D.getD (i - 1) [])) := by
  have hrownz : ∀ i, i < D.length → sqNorm (D.getD i []) ≠ 0 := by
    intro i hi
    rw [List.getD_eq_getElem D [] hi]
    exact hrows _ (List.getElem_mem hi)
  have hq : sqNorm (D.getD (movie_id - 1) []) ≠ 0 := hrownz _ (by omega)
  have hval : ∀ i, i < D.length →
      (simList D movie_id).getD i ⟨0, 0⟩
        = simEntry (D.getD (movie_id - 1) []) (D.getD i []) :=
    fun i hi => simList_getD D movie_id hi
  refine ⟨?_, top_cos_nodup D movie_id N,
    fun x hx => top_cos_mem_bounds D movie_id N x hx, ?_, ?_⟩
  · rw [top_cos_length]
    omega
  · refine List.Pairwise.imp_of_mem ?_ (top_cos_sorted D movie_id N)
    intro a b ha hb hab
    obtain ⟨ha1, ha2⟩ := top_cos_mem_bounds D movie_id N a ha
    obtain ⟨hb1, hb2⟩ := top_cos_mem_bounds D movie_id N b hb
    have hai : a - 1 < D.length := by omega
    have hbi : b - 1 < D.length := by omega
    rw [hval _ hai, hval _ hbi] at hab
    exact (simLe_simEntry_iff _ _ _ hq (hrownz _ hai) (hrownz _ hbi)).1 hab
  · intro i hi j hj1 hj2 hjn
    obtain ⟨hi1, hi2⟩ := top_cos_mem_bounds D movie_id N i hi
    have hii : i - 1 < D.length := by omega
    have hji : j - 1 < D.length := by omega
    have hnot : (j - 1) + 1 ∉ top_cosine_similarity D movie_id N := by
      have hjj : j - 1 + 1 = j := by omega
      rw [hjj]
      exact hjn
    have h := top_cos_split D movie_id N i hi (j - 1) hji hnot
    rw [hval _ hii, hval _ hji] at h
    exact (simLe_simEntry_iff _ _ _ hq (hrownz _ hii) (hrownz _ hji)).1 h

/-- C2 (witness): the identity-like 2×2 factor matrix, query 1, N = 1. -/
theorem C2_top_n_correct_witness :
    (top_cosine_similarity [[1, 0], [0, 1]] 1 1).length = 1 ∧
    (top_cosine_similarity [[1, 0], [0, 1]] 1 1).Nodup ∧
    (∀ x ∈ top_cosine_similarity [[1, 0], [0, 1]] 1 1,
      1 ≤ x ∧ x ≤ ([[(1 : ℚ), 0], [0, 1]] : List (List ℚ)).length) ∧
    (top_cosine_similarity [[1, 0], [0, 1]] 1 1).Pairwise
      (fun a b => cosineSim (([[(1 : ℚ), 0], [0, 1]] : List (List ℚ)).getD (1 - 1) [])
          (([[(1 : ℚ), 0], [0, 1]] : List (List ℚ)).getD (b - 1) [])
        ≤ cosineSim (([[(1 : ℚ), 0], [0, 1]] : List (List ℚ)).getD (1 - 1) [])
          (([[(1 : ℚ), 0], [0, 1]] : List (List ℚ)).getD (a - 1) [])) ∧
    (∀ i ∈ top_cosine_similarity [[1, 0], [0, 1]] 1 1, ∀ j, 1 ≤ j →
      j ≤ ([[(1 : ℚ), 0], [0, 1]] : List (List ℚ)).length →
      j ∉ top_cosine_similarity [[1, 0], [0, 1]] 1 1 →
      cosineSim (([[(1 : ℚ), 0], [0, 1]] : List (List ℚ)).getD (1 - 1) [])
          (([[(1 : ℚ), 0], [0, 1]] : List (List ℚ)).getD (j - 1) [])
        ≤ cosineSim (([[(1 : ℚ), 0], [0, 1]] : List (List ℚ)).getD (1 - 1) [])
          (([[(1 : ℚ), 0], [0, 1]] : List (List ℚ)).getD (i - 1) [])) :=
  C2_top_n_correct [[1, 0], [0, 1]] 1 1
    (by
      intro r hr
      simp only [List.mem_cons, List.not_mem_nil, or_false] at hr
      rcases hr with rfl | rfl <;> norm_num [sqNorm, dot])
    (by norm_num) (by norm_num) (by norm_num) (by norm_num)

/-- C3: for a factor matrix with all rows of nonzero magnitude and a valid
query, the query row's cosine similarity with itself is exactly 1 and is at
least the similarity with every other row; for `N ≥ 1` and absent exact ties
(no other row attains similarity 1) the returned list starts with the
query's own 1-based identifier. -/
theorem C3_query_first (D : List (List ℚ)) (movie_id N : ℕ)
    (hrows : ∀ r ∈ D, sqNorm r ≠ 0)
    (hid1 : 1 ≤ movie_id) (hid2 : movie_id ≤ D.length)
    (hN1 : 1 ≤ N)
    (hties : ∀ j, j < D.length → j ≠ movie_id - 1 →
      cosineSim (D.getD (movie_id - 1) []) (D.getD j []) ≠ 1) :
    cosineSim (D.getD (movie_id - 1) []) (D.getD (movie_id - 1) []) = 1 ∧
    (∀ j, j < D.length →
      cosineSim (D.getD (movie_id - 1) []) (D.getD j [])
        ≤ cosineSim (D.getD (movie_id - 1) []) (D.getD (movie_id - 1) [])) ∧
    (top_cosine_similarity D movie_id N).head? = some movie_id := by
  have hrownz : ∀ i, i < D.length → sqNorm (D.getD i []) ≠ 0 := by
    intro i hi
    rw [List.getD_eq_getElem D [] hi]
    exact hrows _ (List.getElem_mem hi)
  have hqi : movie_id - 1 < D.length := by omega
  have hq : sqNorm (D.getD (movie_id - 1) []) ≠ 0 := hrownz _ hqi
  have hval : ∀ i, i < D.length →
      (simList D movie_id).getD i ⟨0, 0⟩
        = simEntry (D.getD (movie_id - 1) []) (D.getD i []) :=
    fun i hi => simList_getD D movie_id hi
  have hself : cosineSim (D.getD (movie_id - 1) []) (D.getD (movie_id - 1) []) = 1 :=
    cosineSim_self _ hq
  refine ⟨hself, ?_, ?_⟩
  · intro j hj
    rw [hself]
    exact cosineSim_le_one _ _ hq (hrownz _ hj)
  · have hne : sortedIdx D movie_id ≠ [] := by
      have hlen : (sortedIdx D movie_id).length = D.length :=
        sortedIdx_length D movie_id
      intro hnil
      rw [hnil] at hlen
      simp at hlen
      omega
    obtain ⟨h0, t, hft⟩ := List.exists_cons_of_ne_nil hne
    have hh0m : h0 < D.length := by
      have : h0 ∈ sortedIdx D movie_id := by
        rw [hft]
        exact List.mem_cons_self _ _
      exact (sortedIdx_mem D movie_id h0).1 this
    have hsorted := sortedIdx_sorted D movie_id
    rw [hft, List.sorted_cons] at hsorted
    obtain ⟨hhd, -⟩ := hsorted
    have hh : h0 = movie_id - 1 := by
      by_contra hh
      have hidx : movie_id - 1 ∈ sortedIdx D movie_id :=
        (sortedIdx_mem D movie_id _).2 hqi
      rw [hft, List.mem_cons] at hidx
      rcases hidx with heq | hmem
      · exact hh heq.symm
      · have hrel := hhd _ hmem
        rw [hval _ hh0m, hval _ hqi] at hrel
        have hle := (simLe_simEntry_iff _ _ _ hq (hrownz _ hh0m) hq).1 hrel
        rw [hself] at hle
        have hlt :=
          lt_of_le_of_ne (cosineSim_le_one _ _ hq (hrownz _ hh0m))
            (hties h0 hh0m hh)
        linarith
    subst hh
    rw [top_cosine_similarity_eq, hft]
    obtain ⟨N', rfl⟩ : ∃ n, N = n + 1 := ⟨N - 1, by omega⟩
    rw [List.map_cons, List.take_succ_cons, List.head?_cons]
    congr 1
    omega

/-- C3 (witness): the identity-like 2×2 factor matrix, query 1, N = 2. -/
theorem C3_query_first_witness :
    cosineSim (([[(1 : ℚ), 0], [0, 1]] : List (List ℚ)).getD (1 - 1) [])
        (([[(1 : ℚ), 0], [0, 1]] : List (List ℚ)).getD (1 - 1) []) = 1 ∧
    (∀ j, j < ([[(1 : ℚ), 0], [0, 1]] : List (List ℚ)).length →
      cosineSim (([[(1 : ℚ), 0], [0, 1]] : List (List ℚ)).getD (1 - 1) [])
          (([[(1 : ℚ), 0], [0, 1]] : List (List ℚ)).getD j [])
        ≤ cosineSim (([[(1 : ℚ), 0], [0, 1]] : List (List ℚ)).getD (1 - 1) [])
          (([[(1 : ℚ), 0], [0, 1]] : List (List ℚ)).getD (1 - 1) [])) ∧
    (top_cosine_similarity [[1, 0], [0, 1]] 1 2).head? = some 1 :=
  C3_query_first [[1, 0], [0, 1]] 1 2
    (by
      intro r hr
      simp only [List.mem_cons, List.not_mem_nil, or_false] at hr
      rcases hr with rfl | rfl <;> norm_num [sqNorm, dot])
    (by norm_num) (by norm_num) (by norm_num)
    (by
      intro j hj hne
      simp only [List.length_cons, List.length_nil] at hj
      interval_cases j
      · exact absurd rfl hne
      · norm_num [cosineSim, dot, sqNorm])

/-- Shape predicate: `A` is an `m × n` matrix stored as a list of rows. -/
def Mat (m n : ℕ) (A : List (List ℚ)) : Prop :=
  A.length = m ∧ ∀ r ∈ A, r.length = n

/-- Identity matrix `np.eye(k)`. -/
def eye (k : ℕ) : List (List ℚ) :=
  (List.range k).map (fun i => (List.range k).map (fun j => if i = j then 1 else 0))

/-- Horizontal concatenation `np.hstack([A, B])` of two blocks with the same
number of rows. -/
def hstack (A B : List (List ℚ)) : List (List ℚ) :=
  List.zipWith (· ++ ·) A B

/-- Column selection `M[:, js]` (numpy integer-array indexing). -/
def colSelect (M : List (List ℚ)) (js : List ℕ) : List (List ℚ) :=
  M.map (fun row => js.map (fun j => row.getD j 0))

/-- Row selection `M[js, :]` (numpy integer-array indexing). -/
def rowSelect (M : List (List ℚ)) (js : List ℕ) : List (List ℚ) :=
  js.map (fun j => M.getD j [])

/-- `np.argsort` of an integer array, ascending. -/
def argsortNat (xs : List ℕ) : List ℕ :=
  argsort (fun a b => decide (a ≤ b)) 0 xs

/-- The notebook's `interp_dec(A, k)`.  `sli.interp_decomp` is scipy library
code (an external black box for this repository), injected as the function
argument `interp_decomp`; it returns the column index array `idx` and the
projection coefficient block `proj`, from which the code assembles
`X = np.hstack([np.eye(k), proj])[:, np.argsort(idx)]` and returns
`(idx[:k], X)`. -/
def interp_dec
    (interp_decomp : List (List ℚ) → ℕ → List ℕ × List (List ℚ))
    (A : List (List ℚ)) (k : ℕ) : List ℕ × List (List ℚ) :=
  let idx := (interp_decomp A k).1
  let proj := (interp_decomp A k).2
  let X := colSelect (hstack (eye k) proj) (argsortNat idx)
  (idx.take k, X)

theorem argsortNat_map_getD {idx : List ℕ} {n : ℕ}
    (hperm : idx.Perm (List.range n)) :
    (argsortNat idx).map (fun i => idx.getD i 0) = List.range n := by
  have hlen : idx.length = n := by
    rw [hperm.length_eq, List.length_range]
  have hperm2 : (argsortNat idx).Perm (List.range n) := by
    have h := argsort_perm (fun a b => decide (a ≤ b)) 0 idx
    rwa [hlen] at h
  have hmapid : (List.range n).map (fun i => idx.getD i 0) = idx := by
    refine List.ext_getElem (by simp [hlen]) ?_
    intro i h1 h2
    simp only [List.getElem_map, List.getElem_range]
    rw [List.getD_eq_getElem idx 0 h2]
  have hpermmap : ((argsortNat idx).map (fun i => idx.getD i 0)).Perm
      (List.range n) := by
    refine List.Perm.trans ((hperm2.map _).trans ?_) hperm
    rw [hmapid]
  have hsorted : List.Sorted (· ≤ ·)
      ((argsortNat idx).map (fun i => idx.getD i 0)) := by
    have hs := argsort_sorted (fun a b => decide (a ≤ b)) 0 idx
      (by
        intro x y z h1 h2
        simp only [decide_eq_true_eq] at *
        omega)
      (by
        intro x y
        simp only [decide_eq_true_eq]
        omega)
    refine List.Pairwise.map _ ?_ hs
    intro a b hab
    exact of_decide_eq_true hab
  have hsortedr : List.Sorted (· ≤ ·) (List.range n) :=
    (List.pairwise_lt_range n).imp le_of_lt
  exact List.eq_of_perm_of_sorted hpermmap hsorted hsortedr

theorem getD_map_of_lt {α β : Type} (f : α → β) (l : List α) (dA : α) (dB : β)
    {i : ℕ} (hi : i < l.length) : (l.map f).getD i dB = f (l.getD i dA) := by
  rw [List.getD_eq_getElem _ dB (by simpa using hi), List.getElem_map,
    List.getD_eq_getElem _ dA hi]

theorem getD_range_of_lt {n i : ℕ} (hi : i < n) : (List.range n).getD i 0 = i := by
  rw [List.getD_eq_getElem _ 0 (by simpa using hi)]
  exact List.getElem_range i _

theorem nodup_getD_inj {l : List ℕ} (h : l.Nodup) {i j : ℕ} (hi : i < l.length)
    (hj : j < l.length) (heq : l.getD i 0 = l.getD j 0) : i = j := by
  rw [List.getD_eq_getElem l 0 hi, List.getD_eq_getElem l 0 hj] at heq
  exact (h.getElem_inj_iff).1 heq

theorem argsortNat_getD_getD {idx : List ℕ} {n : ℕ}
    (hperm : idx.Perm (List.range n)) {p : ℕ} (hp : p < n) :
    idx.getD ((argsortNat idx).getD p 0) 0 = p := by
  have hlen : idx.length = n := by
    rw [hperm.length_eq, List.length_range]
  have hlen2 : (argsortNat idx).length = n := by
    rw [argsortNat, argsort_length, hlen]
  have h := argsortNat_map_getD hperm
  have hval : ((argsortNat idx).map (fun i => idx.getD i 0)).getD p 0
      = (List.range n).getD p 0 := by rw [h]
  rw [getD_map_of_lt (fun i => idx.getD i 0) (argsortNat idx) 0 0
    (by rw [hlen2]; exact hp), getD_range_of_lt hp] at hval
  exact hval

theorem argsortNat_left_inverse {idx : List ℕ} {n : ℕ}
    (hperm : idx.Perm (List.range n)) {t : ℕ} (ht : t < idx.length) :
    (argsortNat idx).getD (idx.getD t 0) 0 = t := by
  have hlen : idx.length = n := by
    rw [hperm.length_eq, List.length_range]
  have hlen2 : (argsortNat idx).length = n := by
    rw [argsortNat, argsort_length, hlen]
  have hnodup : idx.Nodup := hperm.nodup_iff.2 (List.nodup_range n)
  have hmem : idx.getD t 0 < n := by
    rw [List.getD_eq_getElem idx 0 ht]
    exact List.mem_range.1 (hperm.mem_iff.1 (List.getElem_mem ht))
  have h1 := argsortNat_getD_getD hperm hmem
  have hinvlt : (argsortNat idx).getD (idx.getD t 0) 0 < idx.length := by
    rw [hlen, ← hlen2]
    have hm : (argsortNat idx).getD (idx.getD t 0) 0 ∈ argsortNat idx := by
      rw [List.getD_eq_getElem (argsortNat idx) 0 (by rw [hlen2]; exact hmem)]
      exact List.getElem_mem _
    have hperm2 : (argsortNat idx).Perm (List.range n) := by
      have h := argsort_perm (fun a b => decide (a ≤ b)) 0 idx
      rwa [hlen] at h
    rw [hlen2]
    exact List.mem_range.1 (hperm2.mem_iff.1 hm)
  exact nodup_getD_inj hnodup hinvlt ht h1

theorem colSelect_length (M : List (List ℚ)) (js : List ℕ) :
    (colSelect M js).length = M.length := by
  simp [colSelect]

theorem eye_length (k : ℕ) : (eye k).length = k := by
  simp [eye]

theorem eye_getElem (k : ℕ) {r : ℕ} (hr : r < (eye k).length) :
    (eye k)[r] = (List.range k).map (fun j => if r = j then 1 else 0) := by
  have hr' : r < k := by
    rw [eye_length] at hr
    exact hr
  simp [eye]

theorem colSelect_getElem (M : List (List ℚ)) (js : List ℕ) {r : ℕ}
    (hr : r < (colSelect M js).length) :
    (colSelect M js)[r] = js.map (fun j => (M.getD r []).getD j 0) := by
  have hrM : r < M.length := by
    rw [colSelect_length] at hr
    exact hr
  simp only [colSelect, List.getElem_map]
  rw [List.getD_eq_getElem M [] hrM]

theorem hstack_getD (A B : List (List ℚ)) {r : ℕ}
    (hr : r < (hstack A B).length) :
    (hstack A B).getD r [] = A.getD r [] ++ B.getD r [] := by
  have hmin : r < min A.length B.length := by
    rw [hstack, List.length_zipWith] at hr
    exact hr
  have hA : r < A.length := (lt_min_iff.1 hmin).1
  have hB : r < B.length := (lt_min_iff.1 hmin).2
  rw [List.getD_eq_getElem _ [] hr, List.getD_eq_getElem A [] hA,
    List.getD_eq_getElem B [] hB]
  simp only [hstack, List.getElem_zipWith]

theorem eye_getD (k : ℕ) {r : ℕ} (hr : r < k) :
    (eye k).getD r [] = (List.range k).map (fun j => if r = j then 1 else 0) := by
  rw [List.getD_eq_getElem _ [] (by rw [eye_length]; exact hr)]
  exact eye_getElem k _

theorem eye_getD_length (k : ℕ) {r : ℕ} (hr : r < k) :
    ((eye k).getD r []).length = k := by
  rw [eye_getD k hr]
  simp

theorem eye_entry (k : ℕ) {r t : ℕ} (hr : r < k) (ht : t < k) :
    ((eye k).getD r []).getD t 0 = if r = t then 1 else 0 := by
  rw [eye_getD k hr,
    getD_map_of_lt (fun j => if r = j then (1 : ℚ) else 0) (List.range k) 0 0
      (by simpa using ht),
    getD_range_of_lt ht]

/-- C4: under the scipy `interp_decomp` contract — the returned index array
`idx` is a permutation of the input's `n` column indices and `proj` has `k`
rows — the notebook's `interp_dec(A, k)` returns an index set `J = idx[:k]`
of exactly `k` distinct entries drawn from `[0, n)`, and a coefficient
matrix `X` whose selected columns `X[:, J]` form exactly the `k × k`
identity block. -/
theorem C4_interp_dec_identity
    (interp_decomp : List (List ℚ) → ℕ → List ℕ × List (List ℚ))
    (A : List (List ℚ)) (k n : ℕ)
    (hperm : (interp_decomp A k).1.Perm (List.range n))
    (hproj : (interp_decomp A k).2.length = k)
    (hk : k ≤ n) :
    (interp_dec interp_decomp A k).1.length = k ∧
    (interp_dec interp_decomp A k).1.Nodup ∧
    (∀ j ∈ (interp_dec interp_decomp A k).1, j < n) ∧
    colSelect (interp_dec interp_decomp A k).2
      (interp_dec interp_decomp A k).1 = eye k := by
  have hJ : (interp_dec interp_decomp A k).1 = (interp_decomp A k).1.take k := rfl
  have hX : (interp_dec interp_decomp A k).2
      = colSelect (hstack (eye k) (interp_decomp A k).2)
          (argsortNat (interp_decomp A k).1) := rfl
  have hlen : (interp_decomp A k).1.length = n := by
    rw [hperm.length_eq, List.length_range]
  have hlen2 : (argsortNat (interp_decomp A k).1).length = n := by
    rw [argsortNat, argsort_length, hlen]
  have hnodup : (interp_decomp A k).1.Nodup :=
    hperm.nodup_iff.2 (List.nodup_range n)
  have hmemn : ∀ j ∈ (interp_decomp A k).1, j < n :=
    fun j hj => List.mem_range.1 (hperm.mem_iff.1 hj)
  have hBlen : (hstack (eye k) (interp_decomp A k).2).length = k := by
    rw [hstack, List.length_zipWith, eye_length, hproj]
    simp
  refine ⟨?_, ?_, ?_, ?_⟩
  · rw [hJ, List.length_take, hlen]
    omega
  · rw [hJ]
    exact List.Nodup.sublist (List.take_sublist _ _) hnodup
  · intro j hj
    rw [hJ] at hj
    exact hmemn j (List.mem_of_mem_take hj)
  · rw [hJ, hX]
    refine List.ext_getElem ?_ ?_
    · rw [colSelect_length, colSelect_length, hBlen, eye_length]
    · intro r h1 h2
      have hrk : r < k := by
        rw [eye_length] at h2
        exact h2
      rw [colSelect_getElem _ _ h1, eye_getElem k h2]
      refine List.ext_getElem ?_ ?_
      · rw [List.length_map, List.length_map, List.length_take, hlen,
          List.length_range]
        omega
      · intro t ht1 ht2
        have htk : t < k := by
          rw [List.length_map, List.length_range] at ht2
          exact ht2
        have htn : t < n := lt_of_lt_of_le htk hk
        have htidx : t < (interp_decomp A k).1.length := by
          rw [hlen]
          exact htn
        simp only [List.getElem_map, List.getElem_take, List.getElem_range]
        have hjt : (interp_decomp A k).1.getD t 0 = (interp_decomp A k).1[t] :=
          List.getD_eq_getElem _ 0 htidx
        rw [← hjt]
        have hrow : (colSelect (hstack (eye k) (interp_decomp A k).2)
              (argsortNat (interp_decomp A k).1)).getD r []
            = (argsortNat (interp_decomp A k).1).map
                (fun c => ((hstack (eye k) (interp_decomp A k).2).getD r []).getD c 0) := by
          rw [List.getD_eq_getElem _ []
            (by rw [colSelect_length, hBlen]; exact hrk)]
          exact colSelect_getElem _ _ _
        rw [hrow]
        have hjlt : (interp_decomp A k).1.getD t 0 < n := by
          rw [hjt]
          exact hmemn _ (List.getElem_mem htidx)
        rw [getD_map_of_lt
          (fun c => ((hstack (eye k) (interp_decomp A k).2).getD r []).getD c 0)
          (argsortNat (interp_decomp A k).1) 0 0 (by rw [hlen2]; exact hjlt)]
        rw [argsortNat_left_inverse hperm htidx]
        rw [hstack_getD _ _ (by rw [hBlen]; exact hrk)]
        rw [List.getD_append _ _ 0 t (by rw [eye_getD_length k hrk]; exact htk)]
        exact eye_entry k hrk htk

/-- C4 (witness): a concrete 1×2 input with a concrete decomposition whose
index array is the permutation `[1, 0]` of the two column indices. -/
theorem C4_interp_dec_identity_witness :
    (interp_dec (fun _ _ => ([1, 0], [[(5 : ℚ)]])) [[1, 2]] 1).1.length = 1 ∧
    (interp_dec (fun _ _ => ([1, 0], [[(5 : ℚ)]])) [[1, 2]] 1).1.Nodup ∧
    (∀ j ∈ (interp_dec (fun _ _ => ([1, 0], [[(5 : ℚ)]])) [[1, 2]] 1).1, j < 2) ∧
    colSelect (interp_dec (fun _ _ => ([1, 0], [[(5 : ℚ)]])) [[1, 2]] 1).2
      (interp_dec (fun _ _ => ([1, 0], [[(5 : ℚ)]])) [[1, 2]] 1).1 = eye 1 :=
  C4_interp_dec_identity (fun _ _ => ([1, 0], [[(5 : ℚ)]])) [[1, 2]] 1 2
    (by decide) (by decide) (by decide)

/-- Transpose `.T` of a list-of-rows matrix; the column count is read off the
first row (all stages receive rectangular data). -/
def transposeL (M : List (List ℚ)) : List (List ℚ) :=
  (List.range (M.headD []).length).map (fun j => M.map (fun r => r.getD j 0))

/-- Matrix product `np.dot(A, B)` of list-of-rows matrices. -/
def matmul (A B : List (List ℚ)) : List (List ℚ) :=
  A.map (fun row => (transposeL B).map (fun col => dot row col))

/-- Diagonal matrix `np.diag(s)` of a vector. -/
def diag (s : List ℚ) : List (List ℚ) :=
  (List.range s.length).map (fun i => (List.range s.length).map
    (fun j => if i = j then s.getD i 0 else 0))

/-- The notebook's `svd(x_proj, x, k)`.  The numpy kernels `np.linalg.qr`
(reduced QR) and `np.linalg.svd` (full SVD) and scipy's `interp_decomp` are
external library black boxes for this repository, injected as the function
arguments `qr`, `svdLib` and `interp_decomp`. -/
def svd
    (interp_decomp : List (List ℚ) → ℕ → List ℕ × List (List ℚ))
    (qr : List (List ℚ) → List (List ℚ) × List (List ℚ))
    (svdLib : List (List ℚ) → List (List ℚ) × List ℚ × List (List ℚ))
    (x_proj x : List (List ℚ)) (k : ℕ) :
    List (List ℚ) × List ℚ × List (List ℚ) :=
  let x_proj2 := matmul x (matmul (transposeL x) x_proj)
  let JX := interp_dec interp_decomp (transposeL x_proj2) k
  let QR := qr (rowSelect x JX.1)
  let USV := svdLib (matmul (transposeL JX.2) QR.1)
  let V := matmul (USV.2.2.take k) QR.2
  (USV.1.map (fun row => row.take k), USV.2.1, V)

theorem Mat_head {p q : ℕ} {M : List (List ℚ)} (h : Mat p q M) (hp : 1 ≤ p) :
    (M.headD []).length = q := by
  obtain ⟨hlen, hrows⟩ := h
  cases M with
  | nil =>
      rw [List.length_nil] at hlen
      omega
  | cons r t =>
      rw [List.headD_cons]
      exact hrows r (List.mem_cons_self r t)

theorem Mat_transpose {p q : ℕ} {M : List (List ℚ)} (h : Mat p q M)
    (hp : 1 ≤ p) : Mat q p (transposeL M) := by
  constructor
  · rw [transposeL, List.length_map, List.length_range, Mat_head h hp]
  · intro r hr
    rw [transposeL] at hr
    rcases List.mem_map.1 hr with ⟨j, hj, rfl⟩
    rw [List.length_map, h.1]

theorem Mat_matmul {p q r : ℕ} {A B : List (List ℚ)} (hA : Mat p q A)
    (hB : Mat q r B) (hq : 1 ≤ q) : Mat p r (matmul A B) := by
  constructor
  · rw [matmul, List.length_map, hA.1]
  · intro row hrow
    rw [matmul] at hrow
    rcases List.mem_map.1 hrow with ⟨arow, ha, rfl⟩
    rw [List.length_map, (Mat_transpose hB hq).1]

theorem Mat_rowSelect {m n : ℕ} {M : List (List ℚ)} (h : Mat m n M)
    (J : List ℕ) (hJ : ∀ j ∈ J, j < M.length) :
    Mat J.length n (rowSelect M J) := by
  constructor
  · rw [rowSelect, List.length_map]
  · intro row hrow
    rw [rowSelect] at hrow
    rcases List.mem_map.1 hrow with ⟨j, hj, rfl⟩
    have hjm := hJ j hj
    rw [List.getD_eq_getElem M [] hjm]
    exact h.2 _ (List.getElem_mem hjm)

theorem Mat_colSelect {p q : ℕ} {M : List (List ℚ)} (h : Mat p q M)
    (js : List ℕ) : Mat p js.length (colSelect M js) := by
  constructor
  · rw [colSelect_length, h.1]
  · intro row hrow
    rw [colSelect] at hrow
    rcases List.mem_map.1 hrow with ⟨mrow, hm, rfl⟩
    rw [List.length_map]

theorem Mat_eye (k : ℕ) : Mat k k (eye k) := by
  constructor
  · exact eye_length k
  · intro row hrow
    rw [eye] at hrow
    rcases List.mem_map.1 hrow with ⟨i, hi, rfl⟩
    simp

theorem Mat_hstack {p q r : ℕ} {A B : List (List ℚ)} (hA : Mat p q A)
    (hB : Mat p r B) : Mat p (q + r) (hstack A B) := by
  constructor
  · rw [hstack, List.length_zipWith, hA.1, hB.1]
    simp
  · intro row hrow
    rw [hstack] at hrow
    rcases List.mem_iff_getElem.1 hrow with ⟨i, hi, rfl⟩
    have hiA : i < A.length := by
      rw [List.length_zipWith] at hi
      exact (lt_min_iff.1 hi).1
    have hiB : i < B.length := by
      rw [List.length_zipWith] at hi
      exact (lt_min_iff.1 hi).2
    rw [List.getElem_zipWith, List.length_append,
      hA.2 _ (List.getElem_mem hiA), hB.2 _ (List.getElem_mem hiB)]

theorem Mat_take_rows {p q : ℕ} {M : List (List ℚ)} (h : Mat p q M) (k : ℕ) :
    Mat (min k p) q (M.take k) := by
  constructor
  · rw [List.length_take, h.1]
  · intro row hrow
    exact h.2 row (List.mem_of_mem_take hrow)

theorem Mat_map_take {p q : ℕ} {M : List (List ℚ)} (h : Mat p q M) (k : ℕ) :
    Mat p (min k q) (M.map (fun r => r.take k)) := by
  constructor
  · rw [List.length_map, h.1]
  · intro row hrow
    rcases List.mem_map.1 hrow with ⟨r, hr, rfl⟩
    rw [List.length_take, h.2 r hr]

theorem Mat_diag (s : List ℚ) : Mat s.length s.length (diag s) := by
  constructor
  · rw [diag, List.length_map, List.length_range]
  · intro row hrow
    rw [diag] at hrow
    rcases List.mem_map.1 hrow with ⟨i, hi, rfl⟩
    simp

theorem interp_dec_shape
    (interp_decomp : List (List ℚ) → ℕ → List ℕ × List (List ℚ))
    (A : List (List ℚ)) (k n : ℕ)
    (hperm : (interp_decomp A k).1.Perm (List.range n))
    (hproj : Mat k (n - k) (interp_decomp A k).2)
    (hk : k ≤ n) :
    (interp_dec interp_decomp A k).1.length = k ∧
    (∀ j ∈ (interp_dec interp_decomp A k).1, j < n) ∧
    Mat k n (interp_dec interp_decomp A k).2 := by
  have hJ : (interp_dec interp_decomp A k).1 = (interp_decomp A k).1.take k := rfl
  have hX : (interp_dec interp_decomp A k).2
      = colSelect (hstack (eye k) (interp_decomp A k).2)
          (argsortNat (interp_decomp A k).1) := rfl
  have hlen : (interp_decomp A k).1.length = n := by
    rw [hperm.length_eq, List.length_range]
  have hlen2 : (argsortNat (interp_decomp A k).1).length = n := by
    rw [argsortNat, argsort_length, hlen]
  refine ⟨?_, ?_, ?_⟩
  · rw [hJ, List.length_take, hlen]
    omega
  · intro j hj
    rw [hJ] at hj
    exact List.mem_range.1 (hperm.mem_iff.1 (List.mem_of_mem_take hj))
  · rw [hX]
    have hB : Mat k (k + (n - k)) (hstack (eye k) (interp_decomp A k).2) :=
      Mat_hstack (Mat_eye k) hproj
    have h := Mat_colSelect hB (argsortNat (interp_decomp A k).1)
    rwa [hlen2] at h

/-- C5: shape correctness of the randomized SVD assembler.  Under the
documented shape contracts of the external kernels — scipy `interp_decomp`
(permutation index array plus a `k × (cols − k)` coefficient block), reduced
`np.linalg.qr`, and full `np.linalg.svd` returning non-negative singular
values in descending order — `svd(x_proj, x, k)` on an `m × n` matrix `x`
(with `1 ≤ k ≤ m`, `k ≤ n`) and an `m × k` projection returns `U` of shape
`m × k`, exactly `k` non-negative singular values in descending order, and
`V` of shape `k × n`, so that `U · diag(s) · V` has the `m × n` shape of
`x`. -/
theorem C5_svd_shapes
    (interp_decomp : List (List ℚ) → ℕ → List ℕ × List (List ℚ))
    (qr : List (List ℚ) → List (List ℚ) × List (List ℚ))
    (svdLib : List (List ℚ) → List (List ℚ) × List ℚ × List (List ℚ))
    (x_proj x : List (List ℚ)) (m n k : ℕ)
    (hx : Mat m n x) (hxp : Mat m k x_proj)
    (hk1 : 1 ≤ k) (hkm : k ≤ m) (hkn : k ≤ n)
    (hinterp : ∀ (M : List (List ℚ)) (p q kk : ℕ), Mat p q M → 1 ≤ p →
      1 ≤ kk → kk ≤ q →
      (interp_decomp M kk).1.Perm (List.range q) ∧
      Mat kk (q - kk) (interp_decomp M kk).2)
    (hqr : ∀ (M : List (List ℚ)) (p q : ℕ), Mat p q M → 1 ≤ p → 1 ≤ q →
      Mat p (min p q) (qr M).1 ∧ Mat (min p q) q (qr M).2)
    (hsvd : ∀ (M : List (List ℚ)) (p q : ℕ), Mat p q M → 1 ≤ p → 1 ≤ q →
      Mat p p (svdLib M).1 ∧ (svdLib M).2.1.length = min p q ∧
      (∀ v ∈ (svdLib M).2.1, 0 ≤ v) ∧
      (svdLib M).2.1.Pairwise (fun a b => b ≤ a) ∧
      Mat q q (svdLib M).2.2) :
    Mat m k (svd interp_decomp qr svdLib x_proj x k).1 ∧
    (svd interp_decomp qr svdLib x_proj x k).2.1.length = k ∧
    (∀ v ∈ (svd interp_decomp qr svdLib x_proj x k).2.1, 0 ≤ v) ∧
    (svd interp_decomp qr svdLib x_proj x k).2.1.Pairwise (fun a b => b ≤ a) ∧
    Mat k n (svd interp_decomp qr svdLib x_proj x k).2.2 ∧
    Mat m n (matmul (matmul (svd interp_decomp qr svdLib x_proj x k).1
      (diag (svd interp_decomp qr svdLib x_proj x k).2.1))
      (svd interp_decomp qr svdLib x_proj x k).2.2) := by
  have hm1 : 1 ≤ m := le_trans hk1 hkm
  have hn1 : 1 ≤ n := le_trans hk1 hkn
  set xp2 := matmul x (matmul (transposeL x) x_proj) with hxp2_def
  set JX := interp_dec interp_decomp (transposeL xp2) k with hJX_def
  set QR := qr (rowSelect x JX.1) with hQR_def
  set USV := svdLib (matmul (transposeL JX.2) QR.1) with hUSV_def
  have he : svd interp_decomp qr svdLib x_proj x k
      = (USV.1.map (fun row => row.take k), USV.2.1,
        matmul (USV.2.2.take k) QR.2) := rfl
  have hxp2 : Mat m k xp2 :=
    Mat_matmul hx (Mat_matmul (Mat_transpose hx hm1) hxp hm1) hn1
  have htxp2 : Mat k m (transposeL xp2) := Mat_transpose hxp2 hm1
  obtain ⟨hip, hproj⟩ := hinterp (transposeL xp2) k m k htxp2 hk1 hk1 hkm
  obtain ⟨hJlen, hJmem, hXshape⟩ :=
    interp_dec_shape interp_decomp (transposeL xp2) k m hip hproj hkm
  have hRS : Mat k n (rowSelect x JX.1) := by
    have h := Mat_rowSelect hx JX.1 (fun j hj => by rw [hx.1]; exact hJmem j hj)
    rwa [hJlen] at h
  obtain ⟨hQ1, hR1⟩ := hqr (rowSelect x JX.1) k n hRS hk1 hn1
  rw [min_eq_left hkn] at hQ1 hR1
  have hXtQ : Mat m k (matmul (transposeL JX.2) QR.1) :=
    Mat_matmul (Mat_transpose hXshape hk1) hQ1 hk1
  obtain ⟨hU, hslen, hsnn, hsdesc, hVt⟩ :=
    hsvd (matmul (transposeL JX.2) QR.1) m k hXtQ hm1 hk1
  rw [min_eq_right hkm] at hslen
  have hVtk : Mat k k (USV.2.2.take k) := by
    have h := Mat_take_rows hVt k
    rwa [min_self] at h
  have hV : Mat k n (matmul (USV.2.2.take k) QR.2) := Mat_matmul hVtk hR1 hk1
  have hU2 : Mat m k (USV.1.map (fun row => row.take k)) := by
    have h := Mat_map_take hU k
    rwa [min_eq_left hkm] at h
  have hdiag : Mat k k (diag USV.2.1) := by
    have h := Mat_diag USV.2.1
    rwa [hslen] at h
  rw [he]
  exact ⟨hU2, hslen, hsnn, hsdesc, hV,
    Mat_matmul (Mat_matmul hU2 hdiag hk1) hV hk1⟩

/-- Canonical shape-correct stand-in for scipy `interp_decomp`, used to
witness the external-kernel contract hypotheses at concrete inputs. -/
def stubInterpDecomp (M : List (List ℚ)) (kk : ℕ) : List ℕ × List (List ℚ) :=
  (List.range (M.headD []).length,
    (List.range kk).map (fun _ => List.replicate ((M.headD []).length - kk) 0))

/-- Canonical shape-correct stand-in for reduced `np.linalg.qr`. -/
def stubQR (M : List (List ℚ)) : List (List ℚ) × List (List ℚ) :=
  ((List.range M.length).map
      (fun _ => List.replicate (min M.length (M.headD []).length) 0),
    (List.range (min M.length (M.headD []).length)).map
      (fun _ => List.replicate (M.headD []).length 0))

/-- Canonical shape-correct stand-in for full `np.linalg.svd`. -/
def stubSVD (M : List (List ℚ)) : List (List ℚ) × List ℚ × List (List ℚ) :=
  ((List.range M.length).map (fun _ => List.replicate M.length 0),
    (List.replicate (min M.length (M.headD []).length) 0,
    (List.range (M.headD []).length).map
      (fun _ => List.replicate (M.headD []).length 0)))

theorem stubInterpDecomp_contract (M : List (List ℚ)) (p q kk : ℕ)
    (hM : Mat p q M) (hp : 1 ≤ p) (h1 : 1 ≤ kk) (h2 : kk ≤ q) :
    (stubInterpDecomp M kk).1.Perm (List.range q) ∧
    Mat kk (q - kk) (stubInterpDecomp M kk).2 := by
  have hq : (M.headD []).length = q := Mat_head hM hp
  refine ⟨?_, ?_, ?_⟩
  · simp only [stubInterpDecomp, hq]
    exact List.Perm.refl _
  · simp [stubInterpDecomp]
  · intro r hr
    simp only [stubInterpDecomp, List.mem_map] at hr
    rcases hr with ⟨i, hi, rfl⟩
    rw [List.length_replicate, hq]

theorem stubQR_contract (M : List (List ℚ)) (p q : ℕ) (hM : Mat p q M)
    (hp : 1 ≤ p) (hq : 1 ≤ q) :
    Mat p (min p q) ((stubQR M).1) ∧ Mat (min p q) q ((stubQR M).2) := by
  have hqlen : (M.headD []).length = q := Mat_head hM hp
  have hqlen2 : (M.head?.getD []).length = q := by
    rw [← List.headD_eq_head?_getD]
    exact hqlen
  refine ⟨⟨?_, ?_⟩, ?_, ?_⟩
  · simp [stubQR, hM.1]
  · intro r hr
    simp only [stubQR, List.mem_map] at hr
    rcases hr with ⟨i, hi, rfl⟩
    rw [List.length_replicate, hM.1, hqlen]
  · simp [stubQR, hM.1, hqlen2]
  · intro r hr
    simp only [stubQR, List.mem_map] at hr
    rcases hr with ⟨i, hi, rfl⟩
    rw [List.length_replicate, hqlen]

theorem stubSVD_contract (M : List (List ℚ)) (p q : ℕ) (hM : Mat p q M)
    (hp : 1 ≤ p) (hq : 1 ≤ q) :
    Mat p p ((stubSVD M).1) ∧ (stubSVD M).2.1.length = min p q ∧
    (∀ v ∈ (stubSVD M).2.1, 0 ≤ v) ∧
    (stubSVD M).2.1.Pairwise (fun a b => b ≤ a) ∧
    Mat q q ((stubSVD M).2.2) := by
  have hqlen : (M.headD []).length = q := Mat_head hM hp
  have hqlen2 : (M.head?.getD []).length = q := by
    rw [← List.headD_eq_head?_getD]
    exact hqlen
  refine ⟨⟨?_, ?_⟩, ?_, ?_, ?_, ?_, ?_⟩
  · simp [stubSVD, hM.1]
  · intro r hr
    simp only [stubSVD, List.mem_map] at hr
    rcases hr with ⟨i, hi, rfl⟩
    rw [List.length_replicate, hM.1]
  · simp [stubSVD, hM.1, hqlen2]
  · intro v hv
    simp only [stubSVD] at hv
    rw [List.mem_replicate] at hv
    rw [hv.2]
  · rw [show (stubSVD M).2.1 = List.replicate (min M.length (M.headD []).length) 0
      from rfl]
    rw [List.pairwise_replicate]
    right
    exact le_refl 0
  · simp [stubSVD, hqlen2]
  · intro r hr
    simp only [stubSVD, List.mem_map] at hr
    rcases hr with ⟨i, hi, rfl⟩
    rw [List.length_replicate, hqlen]

/-- C5 (witness): a concrete 1×1 instance with the canonical shape-correct
kernels. -/
theorem C5_svd_shapes_witness :
    Mat 1 1 (svd stubInterpDecomp stubQR stubSVD [[3]] [[2]] 1).1 ∧
    (svd stubInterpDecomp stubQR stubSVD [[3]] [[2]] 1).2.1.length = 1 ∧
    (∀ v ∈ (svd stubInterpDecomp stubQR stubSVD [[3]] [[2]] 1).2.1, 0 ≤ v) ∧
    (svd stubInterpDecomp stubQR stubSVD [[3]] [[2]] 1).2.1.Pairwise
      (fun a b => b ≤ a) ∧
    Mat 1 1 (svd stubInterpDecomp stubQR stubSVD [[3]] [[2]] 1).2.2 ∧
    Mat 1 1 (matmul (matmul (svd stubInterpDecomp stubQR stubSVD [[3]] [[2]] 1).1
      (diag (svd stubInterpDecomp stubQR stubSVD [[3]] [[2]] 1).2.1))
      (svd stubInterpDecomp stubQR stubSVD [[3]] [[2]] 1).2.2) :=
  C5_svd_shapes stubInterpDecomp stubQR stubSVD [[3]] [[2]] 1 1 1
    (by
      refine ⟨rfl, ?_⟩
      intro r hr
      simp only [List.mem_cons, List.not_mem_nil, or_false] at hr
      subst hr
      rfl)
    (by
      refine ⟨rfl, ?_⟩
      intro r hr
      simp only [List.mem_cons, List.not_mem_nil, or_false] at hr
      subst hr
      rfl)
    (by norm_num) (by norm_num) (by norm_num)
    (fun M p q kk hM hp h1 h2 => stubInterpDecomp_contract M p q kk hM hp h1 h2)
    (fun M p q hM hp hq => stubQR_contract M p q hM hp hq)
    (fun M p q hM hp hq => stubSVD_contract M p q hM hp hq)

/-- The boolean array `x > thresh` computed entrywise (numpy broadcasting
of the comparison in `randomize`). -/
def gtPattern (x : List (List ℚ)) (thresh : ℚ) : List (List Bool) :=
  x.map (fun row => row.map (fun v => decide (thresh < v)))

/-- Binarisation `(x > thresh).astype('uint8')` from the notebook's
`randomize`: the boolean pattern cast to 0/1 integers. -/
def binarize (x : List (List ℚ)) (thresh : ℚ) : List (List ℕ) :=
  (gtPattern x thresh).map (fun row => row.map (fun b => if b then 1 else 0))

/-- The notebook's `randomize(x, k, thresh=0)`: binarize the input and feed
it to `OPUMap(n_components=k).transform`.  `OPUMap` is lightonml repository
code not present under `src/`; modelled from the spec as an injected
deterministic mapping `opuTransform` taking the configured output dimension
`k` and the binary input array. -/
def randomize (opuTransform : ℕ → List (List ℕ) → List (List ℚ))
    (x : List (List ℚ)) (k : ℕ) (thresh : ℚ := 0) : List (List ℚ) :=
  opuTransform k (binarize x thresh)

/-- C6: given the external OPU contract — mapping a binary array of shape
`(n_samples, n_features)` with configured output dimension `k` yields
`n_samples` output vectors of dimension `k` — `randomize(x, k, thresh)`
returns an array of shape `(rows x, k)`. -/
theorem C6_randomize_shape (opuTransform : ℕ → List (List ℕ) → List (List ℚ))
    (x : List (List ℚ)) (k : ℕ) (thresh : ℚ)
    (hopu : ∀ (b : List (List ℕ)), (opuTransform k b).length = b.length ∧
      ∀ r ∈ opuTransform k b, r.length = k) :
    (randomize opuTransform x k thresh).length = x.length ∧
    ∀ r ∈ randomize opuTransform x k thresh, r.length = k := by
  have hb : (binarize x thresh).length = x.length := by
    simp [binarize, gtPattern]
  refine ⟨?_, ?_⟩
  · rw [randomize, (hopu (binarize x thresh)).1, hb]
  · intro r hr
    exact (hopu (binarize x thresh)).2 r hr

/-- C6 (witness): a concrete OPU satisfying the shape contract, applied to a
concrete 1×2 input with `k = 2`. -/
theorem C6_randomize_shape_witness :
    (randomize (fun k b => b.map (fun _ => List.replicate k 0)) [[1, -1]] 2 0).length
      = ([[(1 : ℚ), -1]] : List (List ℚ)).length ∧
    ∀ r ∈ randomize (fun k b => b.map (fun _ => List.replicate k 0)) [[1, -1]] 2 0,
      r.length = 2 :=
  C6_randomize_shape (fun k b => b.map (fun _ => List.replicate k 0)) [[1, -1]] 2 0
    (by
      intro b
      refine ⟨by simp, ?_⟩
      intro r hr
      rcases List.mem_map.1 hr with ⟨row, hrow, rfl⟩
      exact List.length_replicate 2 0)

/-- C10: `randomize` binarizes before projecting, so its output depends on
`x` only through the boolean pattern `x > thresh`: whenever two inputs have
the same threshold pattern, the outputs coincide (with the OPU mapping
embedded as a deterministic injected function). -/
theorem C10_randomize_pattern_only
    (opuTransform : ℕ → List (List ℕ) → List (List ℚ))
    (x y : List (List ℚ)) (k : ℕ) (thresh : ℚ)
    (hpat : gtPattern x thresh = gtPattern y thresh) :
    randomize opuTransform x k thresh = randomize opuTransform y k thresh := by
  have hb : binarize x thresh = binarize y thresh := by
    rw [binarize, binarize, hpat]
  rw [randomize, randomize, hb]

/-- C10 (witness): inputs `[[5, -3]]` and `[[7, -1]]` have the same sign
pattern over threshold 0 and project identically. -/
theorem C10_randomize_pattern_only_witness :
    randomize (fun k b => b.map (fun _ => List.replicate k 0)) [[5, -3]] 1 0
      = randomize (fun k b => b.map (fun _ => List.replicate k 0)) [[7, -1]] 1 0 :=
  C10_randomize_pattern_only (fun k b => b.map (fun _ => List.replicate k 0))
    [[5, -3]] [[7, -1]] 1 0 (by decide)

/-- NaN-propagating float subtraction on the NaN-aware value model
(`none` is NaN, `some x` a finite value). -/
def osub (a b : Option ℚ) : Option ℚ :=
  match a, b with
  | some x, some y => some (x - y)
  | _, _ => none

/-- Column `j` of the ratings matrix (rows = movies, columns = users). -/
def column (R : List (List (Option ℚ))) (j : ℕ) : List (Option ℚ) :=
  R.map (fun row => row.getD j none)

/-- `np.nanmean` of one column: mean of the non-NaN entries; NaN when the
column is entirely NaN (numpy warns — suppressed in the notebook — and
returns NaN). -/
def nanmean (col : List (Option ℚ)) : Option ℚ :=
  let vals := col.filterMap id
  if vals.length = 0 then none else some (vals.sum / vals.length)

/-- First statement of the notebook's demeaning cell:
`ratings -= np.nanmean(ratings, axis=0, keepdims=True)`. -/
def demean (R : List (List (Option ℚ))) : List (List (Option ℚ)) :=
  R.map (fun row => (List.range row.length).map
    (fun j => osub (row.getD j none) (nanmean (column R j))))

/-- Second statement of the demeaning cell: `ratings[np.isnan(ratings)] = 0`. -/
def fillnan (R : List (List (Option ℚ))) : List (List (Option ℚ)) :=
  R.map (fun row => row.map (fun x => some (x.getD 0)))

/-- The notebook's demeaning cell: demean, then replace NaN by zero. -/
def preprocess (R : List (List (Option ℚ))) : List (List (Option ℚ)) :=
  fillnan (demean R)

/-- C7: after the demeaning cell every entry of the rating matrix is finite
(`isSome` in the NaN-aware model; over exact rationals no infinity can
arise), including for columns consisting entirely of sentinel entries;
moreover demeaning itself keeps every non-sentinel entry finite (the
NaN-ignoring column mean of a column with a present entry is defined), and a
sentinel entry ends up as exactly `0` after the replacement step. -/
theorem C7_preprocess_finite (R : List (List (Option ℚ))) :
    (∀ row ∈ preprocess R, ∀ x ∈ row, x.isSome = true) ∧
    (∀ i j, i < R.length → j < (R.getD i []).length →
      ((R.getD i []).getD j none).isSome = true →
      (((demean R).getD i []).getD j none).isSome = true) ∧
    (∀ i j, i < R.length → j < (R.getD i []).length →
      (R.getD i []).getD j none = none →
      ((preprocess R).getD i []).getD j none = some 0) := by
  have hdlen : (demean R).length = R.length := by
    simp [demean]
  have hdrow : ∀ i, i < R.length → (demean R).getD i []
      = (List.range ((R.getD i []).length)).map
        (fun j => osub ((R.getD i []).getD j none) (nanmean (column R j))) := by
    intro i hi
    rw [List.getD_eq_getElem (demean R) [] (by rw [hdlen]; exact hi)]
    simp only [demean, List.getElem_map]
    rw [List.getD_eq_getElem R [] hi]
  have hdentry : ∀ i j, i < R.length → j < (R.getD i []).length →
      ((demean R).getD i []).getD j none
        = osub ((R.getD i []).getD j none) (nanmean (column R j)) := by
    intro i j hi hj
    rw [hdrow i hi,
      getD_map_of_lt (fun j => osub ((R.getD i []).getD j none)
        (nanmean (column R j))) (List.range ((R.getD i []).length)) 0 none
        (by simpa using hj),
      getD_range_of_lt hj]
  have hmean : ∀ i j, i < R.length → j < (R.getD i []).length →
      ((R.getD i []).getD j none).isSome = true →
      (nanmean (column R j)).isSome = true := by
    intro i j hi hj hsome
    rcases Option.isSome_iff_exists.1 hsome with ⟨v, hv⟩
    have hmem : (v : ℚ) ∈ (column R j).filterMap id := by
      rw [List.mem_filterMap]
      refine ⟨some v, ?_, rfl⟩
      rw [← hv, column]
      have : (R.getD i []).getD j none
          = (fun row => row.getD j none) (R.getD i []) := rfl
      rw [this, List.getD_eq_getElem R [] hi]
      exact List.mem_map_of_mem _ (List.getElem_mem hi)
    have hne : ((column R j).filterMap id).length ≠ 0 := by
      intro h0
      rw [List.length_eq_zero] at h0
      rw [h0] at hmem
      exact List.not_mem_nil v hmem
    rw [nanmean]
    simp only [if_neg hne]
    rfl
  refine ⟨?_, ?_, ?_⟩
  · intro row hrow x hx
    rw [preprocess, fillnan] at hrow
    rcases List.mem_map.1 hrow with ⟨drow, hd, rfl⟩
    rcases List.mem_map.1 hx with ⟨y, hy, rfl⟩
    rfl
  · intro i j hi hj hsome
    rw [hdentry i j hi hj]
    rcases Option.isSome_iff_exists.1 hsome with ⟨v, hv⟩
    rcases Option.isSome_iff_exists.1 (hmean i j hi hj hsome) with ⟨mv, hmv⟩
    rw [hv, hmv]
    rfl
  · intro i j hi hj hnone
    have hplen : (preprocess R).length = R.length := by
      simp [preprocess, fillnan, demean]
    have hprow : (preprocess R).getD i []
        = ((demean R).getD i []).map (fun x => some (x.getD 0)) := by
      rw [List.getD_eq_getElem (preprocess R) [] (by rw [hplen]; exact hi)]
      simp only [preprocess, fillnan, List.getElem_map]
      rw [List.getD_eq_getElem (demean R) [] (by rw [hdlen]; exact hi)]
    rw [hprow]
    have hjd : j < ((demean R).getD i []).length := by
      rw [hdrow i hi, List.length_map, List.length_range]
      exact hj
    rw [getD_map_of_lt (fun x => some (x.getD 0)) ((demean R).getD i [])
      none none hjd]
    rw [hdentry i j hi hj, hnone]
    rfl

/-- C7 (witness): a 2×2 rating matrix whose second column is entirely the
NaN sentinel. -/
theorem C7_preprocess_finite_witness :
    (∀ row ∈ preprocess [[some 1, none], [some 3, none]], ∀ x ∈ row,
      x.isSome = true) ∧
    (∀ i j, i < ([[some 1, none], [some 3, none]] : List (List (Option ℚ))).length →
      j < (([[some 1, none], [some 3, none]] : List (List (Option ℚ))).getD i []).length →
      ((([[some 1, none], [some 3, none]] : List (List (Option ℚ))).getD i []).getD j none).isSome = true →
      (((demean [[some 1, none], [some 3, none]]).getD i []).getD j none).isSome = true) ∧
    (∀ i j, i < ([[some 1, none], [some 3, none]] : List (List (Option ℚ))).length →
      j < (([[some 1, none], [some 3, none]] : List (List (Option ℚ))).getD i []).length →
      (([[some 1, none], [some 3, none]] : List (List (Option ℚ))).getD i []).getD j none = none →
      ((preprocess [[some 1, none], [some 3, none]]).getD i []).getD j none = some 0) :=
  C7_preprocess_finite [[some 1, none], [some 3, none]]

/-- Modelled from the spec: `OPUMap` (`lightonml.projections.sklearn`,
repository code not present under `src/`) as a fitted transformer whose
persisted state, per the spec, is its configuration — output dimensions and
random seed — plus the fitted flag; its transform is deterministic given
that state. -/
structure OPUMap where
  n_components : ℕ
  seed : ℕ
  fitted : Bool
deriving DecidableEq, Repr

/-- Modelled from the spec: `pickle.dump` of an `OPUMap` persists its
configuration (dimensions, seed) and fitted flag. -/
def pickle_dump (m : OPUMap) : List ℕ :=
  [m.n_components, m.seed, if m.fitted then 1 else 0]

/-- Modelled from the spec: `pickle.load` restores the transformer from the
persisted configuration; anything that is not a valid serialisation fails. -/
def pickle_load (bytes : List ℕ) : Option OPUMap :=
  match bytes with
  | [n, s, f] => some ⟨n, s, decide (f = 1)⟩
  | _ => none

/-- C9: round-trip — serialising a fitted `OPUMap` and deserialising it
restores an identical transformer: the fitted state is preserved and any
deterministic transform applied to the same input reproduces the original
output exactly. -/
theorem C9_pickle_roundtrip (m : OPUMap) (hf : m.fitted = true) :
    pickle_load (pickle_dump m) = some m ∧
    (∀ m', pickle_load (pickle_dump m) = some m' → m'.fitted = true) ∧
    (∀ (transform : OPUMap → List (List ℚ) → List (List ℚ))
      (x : List (List ℚ)) (m' : OPUMap),
      pickle_load (pickle_dump m) = some m' → transform m' x = transform m x) := by
  have h : pickle_load (pickle_dump m) = some m := by
    rcases m with ⟨n, s, f⟩
    cases f
    · simp [pickle_dump, pickle_load]
    · simp [pickle_dump, pickle_load]
  refine ⟨h, ?_, ?_⟩
  · intro m' hm'
    rw [h] at hm'
    have hmm : m = m' := Option.some_injective _ hm'
    rw [← hmm]
    exact hf
  · intro transform x m' hm'
    rw [h] at hm'
    have hmm : m = m' := Option.some_injective _ hm'
    rw [← hmm]

/-- C9 (witness): the notebook's configuration `n_components = 10000`, a
fixed seed, fitted. -/
theorem C9_pickle_roundtrip_witness :
    pickle_load (pickle_dump ⟨10000, 42, true⟩) = some ⟨10000, 42, true⟩ ∧
    (∀ m', pickle_load (pickle_dump ⟨10000, 42, true⟩) = some m' →
      m'.fitted = true) ∧
    (∀ (transform : OPUMap → List (List ℚ) → List (List ℚ))
      (x : List (List ℚ)) (m' : OPUMap),
      pickle_load (pickle_dump ⟨10000, 42, true⟩) = some m' →
      transform m' x = transform ⟨10000, 42, true⟩ x) :=
  C9_pickle_roundtrip ⟨10000, 42, true⟩ rfl
